import Mathlib

/-!
Verification of d4l3k/rewriting-http-proxy (src/main.go) against its
specification. Go strings are modelled as lists of characters; the pieces of
the Go standard library that the program calls (strings.Split, strings.Join,
strings.HasPrefix, path.Join / path.Clean on rooted paths) are given
executable models below, each documented with the source location it embeds.
-/

/-- Go strings are modelled as lists of characters. -/
abbrev Str := List Char

/-- Turns a Lean string literal into the list-of-characters model. -/
def chars (s : String) : Str := s.data

/-- Model of Go strings.Split(s, "/"): splits on every occurrence of the
separator; Split("", "/") = [""] and a leading or trailing slash yields an
empty field. Used by the /view/ handler (main.go line 29). -/
def splitSlash : Str → List Str
  | [] => [[]]
  | c :: rest =>
    if c = '/' then [] :: splitSlash rest
    else
      match splitSlash rest with
      | [] => [[c]]
      | h :: t => (c :: h) :: t

/-- Model of Go strings.Join(parts, "/") (main.go lines 31 and 36). -/
def joinSlash : List Str → Str
  | [] => []
  | [s] => s
  | s :: rest => s ++ '/' :: joinSlash rest

/-- Model of Go strings.HasPrefix(s, pre); the first argument is the wanted
leading piece (main.go lines 180 and 194). -/
def hasPref : Str → Str → Bool
  | [], _ => true
  | _ :: _, [] => false
  | c :: p, d :: s => c == d && hasPref p s

/-- Segment stack of Go path.Clean on a rooted path: empty and "." segments
are dropped, ".." pops the previous segment (at the root it is dropped),
anything else is pushed.  The accumulator holds the kept segments in reverse
order. -/
def cleanSegs : List Str → List Str → List Str
  | acc, [] => acc.reverse
  | acc, seg :: rest =>
    if seg = [] then cleanSegs acc rest
    else if seg = ['.'] then cleanSegs acc rest
    else if seg = ['.', '.'] then cleanSegs acc.tail rest
    else cleanSegs (seg :: acc) rest

/-- Model of Go path.Clean for rooted inputs (paths beginning with a slash,
the only inputs the program feeds it): resolve "." and ".." lexically,
collapse repeated slashes, drop any trailing slash; the empty result is "/". -/
def pathClean (p : Str) : Str :=
  let segs := cleanSegs [] (splitSlash p)
  if segs = [] then ['/'] else '/' :: joinSlash segs

/-- Model of Go path.Join(a, b) for nonempty a and b as called at
main.go line 195: Clean(a + "/" + b). -/
def pathJoin (a b : Str) : Str := pathClean (a ++ '/' :: b)

theorem splitSlash_ne_nil (l : Str) : splitSlash l ≠ [] := by
  induction l with
  | nil => simp [splitSlash]
  | cons c rest ih =>
    by_cases hc : c = '/'
    · simp [splitSlash, hc]
    · simp only [splitSlash, if_neg hc]
      cases h : splitSlash rest with
      | nil => simp
      | cons a t => simp

theorem splitSlash_slash (l : Str) : splitSlash ('/' :: l) = [] :: splitSlash l := by
  simp [splitSlash]

/-- Splitting an appended string whose first part is slash-free and is
followed by an explicit slash peels that part off as one field. -/
theorem splitSlash_seg (xs ys : Str) (h : '/' ∉ xs) :
    splitSlash (xs ++ '/' :: ys) = xs :: splitSlash ys := by
  induction xs with
  | nil => simp [splitSlash]
  | cons c cs ih =>
    have hc : c ≠ '/' := by
      intro e
      exact h (e ▸ List.mem_cons_self c cs)
    have hcs : '/' ∉ cs := fun m => h (List.mem_cons_of_mem _ m)
    simp only [List.cons_append, splitSlash, if_neg hc]
    rw [show cs.append ('/' :: ys) = cs ++ '/' :: ys from rfl, ih hcs]

/-- Joining the fields of a split recovers the original string. -/
theorem joinSlash_splitSlash (l : Str) : joinSlash (splitSlash l) = l := by
  induction l with
  | nil => simp [splitSlash, joinSlash]
  | cons c rest ih =>
    by_cases hc : c = '/'
    · subst hc
      rw [splitSlash_slash]
      cases h : splitSlash rest with
      | nil => exact absurd h (splitSlash_ne_nil rest)
      | cons a t =>
        rw [h] at ih
        simp [joinSlash, ih]
    · simp only [splitSlash, if_neg hc]
      cases h : splitSlash rest with
      | nil => exact absurd h (splitSlash_ne_nil rest)
      | cons a t =>
        rw [h] at ih
        cases t with
        | nil => simpa [joinSlash] using ih
        | cons b t2 => simpa [joinSlash] using ih

/-- The number of fields produced by the split is the slash count plus one. -/
theorem splitSlash_length (l : Str) :
    (splitSlash l).length = l.count '/' + 1 := by
  induction l with
  | nil => simp [splitSlash]
  | cons c rest ih =>
    by_cases hc : c = '/'
    · subst hc
      simp [splitSlash_slash, ih, List.count_cons]
    · simp only [splitSlash, if_neg hc]
      cases h : splitSlash rest with
      | nil => exact absurd h (splitSlash_ne_nil rest)
      | cons a t =>
        rw [h] at ih
        simp only [List.length_cons] at ih ⊢
        have : (c :: rest).count '/' = rest.count '/' := by
          simp [List.count_cons, hc]
        omega

/-- When no segment is "..", cleaning never pops: it only filters out empty
and "." segments on top of whatever is already accumulated. -/
theorem cleanSegs_no_dotdot (l : List Str) (acc : List Str)
    (h : chars ".." ∉ l) :
    cleanSegs acc l = acc.reverse ++ l.filter (fun s => !(s = [] ∨ s = ['.'])) := by
  induction l generalizing acc with
  | nil => simp [cleanSegs]
  | cons seg rest ih =>
    have hseg : seg ≠ ['.', '.'] := by
      intro e
      exact h (by rw [e] at *; exact List.mem_cons_self _ _)
    have hrest : chars ".." ∉ rest := fun m => h (List.mem_cons_of_mem _ m)
    by_cases h1 : seg = []
    · simp [cleanSegs, h1, ih _ hrest]
    · by_cases h2 : seg = ['.']
      · simp [cleanSegs, h1, h2, ih _ hrest]
      · simp [cleanSegs, h1, h2, hseg, ih _ hrest]

/-- The components of a Go net/url URL value that the program touches
(Scheme, Host, Path, RawQuery, Fragment), each modelled as a string. -/
structure GoURL where
  scheme : Str
  host : Str
  path : Str
  query : Str
  fragment : Str
  deriving Repr, DecidableEq

/-- The proxy-path portion of the encoding built by rewriteAttr
(main.go line 186): fmt.Sprintf of /view/, the scheme, a slash, the host and
the path. -/
def encodePath (u : GoURL) : Str :=
  chars "/view/" ++ u.scheme ++ chars "/" ++ u.host ++ u.path

/-- The full attribute value built by rewriteAttr (main.go lines 186 to 192):
the proxy path followed by a question mark and the raw query when the query is
nonempty, then a hash and the fragment when the fragment is nonempty. -/
def encodeURL (u : GoURL) : Str :=
  encodePath u
    ++ (if 0 < u.query.length then '?' :: u.query else [])
    ++ (if 0 < u.fragment.length then '#' :: u.fragment else [])

/-- The /view/ handler decoding (main.go lines 29 to 37): split the inbound
path on slashes, take field 2 as the scheme and field 3 as the host, re-join
the remaining fields behind a slash as the path, and attach the inbound raw
query verbatim. The handler never assigns a fragment, so the decoded URL
carries an empty one. Go indexes parts[2] and parts[3] directly and panics
when they do not exist; the in-bounds side condition is tracked separately by
viewPartsOk, and this definition totalises the out-of-bounds reads with the
empty string. -/
def viewDecode (p : Str) (rawQuery : Str) : GoURL :=
  let parts := splitSlash p
  ⟨parts.getD 2 [], parts.getD 3 [], '/' :: joinSlash (parts.drop 4), rawQuery, []⟩

/-- In-bounds condition for the /view/ handler accesses parts[:4], parts[2]
and parts[3] (main.go lines 31 to 35): the split path must have at least four
fields. -/
def viewPartsOk (p : Str) : Prop := 4 ≤ (splitSlash p).length

/-- A request path is routed to the /view/ handler exactly when it lies under
the registered pattern "/view/" (main.go line 28); net/http cleans the path
and redirects "/view" to "/view/" first, so every path the handler sees has
this property. -/
def routedToView (p : Str) : Bool := hasPref (chars "/view/") p

/-- Model of rewriteAttr on a single attribute value (main.go lines
178 to 200), parameterised by url.Parse. urlParse returns none exactly when Go
url.Parse returns a nil pointer together with an error; in that case the Go
code reads parsed.Scheme on line 182 before the err check on line 185, a nil
pointer dereference, which this model reports as none. On a successful parse
an empty scheme is defaulted to https and the value is re-encoded into the
proxy path space; a root-relative value is joined onto the url-prefix with
path.Join; anything else is returned unchanged. -/
def rewriteAttrVal (urlParse : Str → Option GoURL) (pfx href : Str) : Option Str :=
  if hasPref (chars "http://") href || hasPref (chars "https://") href
      || hasPref (chars "//") href then
    match urlParse href with
    | none => none
    | some parsed0 =>
      let parsed :=
        if parsed0.scheme = [] then
          ⟨chars "https", parsed0.host, parsed0.path, parsed0.query, parsed0.fragment⟩
        else parsed0
      some (encodeURL parsed)
  else if hasPref (chars "/") href then
    some (pathJoin pfx href)
  else
    some href

/-- A single match/replace rule (main.go lines 173 to 176). -/
structure Rule where
  Match : Str
  Replace : Str
  deriving Repr, DecidableEq

/-- Model of regexp.Compile restricted to the pattern shapes the claims use:
a single literal character compiles to a matcher for that character, while a
lone regular-expression metacharacter such as "(" fails to compile, and so
does anything longer. Go regexp.Compile returns nil and an error on failure;
none stands for that nil. -/
def reCompile : Str → Option Char
  | [c] =>
    if c = '(' || c = ')' || c = '[' || c = '*' || c = '+' || c = '?' then none
    else some c
  | _ => none

/-- Model of Regexp.ReplaceAllString for a compiled single-character literal
pattern: every occurrence of the character is replaced by the replacement
string (the replacement is taken literally; the claims use replacements
without dollar references). -/
def reApply (r : Char) (rep : Str) (t : Str) : Str :=
  t.flatMap (fun c => if c = r then rep else [c])

/-- The compile loop of the /view/ handler (main.go lines 69 to 76): each
rule pattern is compiled and the result is appended to the slice whether or
not compilation failed — the error is only logged, there is no continue, so a
failed compile appends a nil regexp, modelled by none. -/
def compileRules (rules : List Rule) : List (Option Char) :=
  rules.map (fun rule => reCompile rule.Match)

/-- The per-text-node loop of the Walk callback (main.go lines 97 to 99):
the regexps are applied in order, each to the current text. Reaching a nil
regexp calls ReplaceAllString on a nil pointer, a panic, modelled as none;
a regexp without a matching rule entry would read rules[i] out of range,
also a panic (unreachable because both lists are built in lockstep). -/
def applyRegexps : List (Option Char) → List Rule → Str → Option Str
  | [], _, t => some t
  | none :: _, _, _ => none
  | some _ :: _, [], _ => none
  | some r :: res, rule :: rest, t => applyRegexps res rest (reApply r rule.Replace t)

mutual
/-- A parsed HTML node (golang.org/x/net/html Node as used by the program):
either a text node carrying its data or an element with a tag name, an
attribute list and children. -/
inductive HNode where
  | text (data : Str) : HNode
  | elem (tag : Str) (attrs : List (Str × Str)) (children : HForest) : HNode

/-- A list of sibling HTML nodes. -/
inductive HForest where
  | nil : HForest
  | cons (n : HNode) (rest : HForest) : HForest
end

/-- Replaces the children of a node, keeping everything else. -/
def HNode.withChildren : HNode → HForest → HNode
  | .text d, _ => .text d
  | .elem t a _, cs => .elem t a cs

mutual
/-- Walk (main.go lines 150 to 155): calls f once for the node and each of
its descendants, pre-order. The callbacks used by the program only modify the
visited node in place and may panic; none propagates such a panic. -/
def walkNode (f : HNode → Option HNode) : HNode → Option HNode
  | .text d =>
    f (.text d)
  | .elem t a cs =>
    match f (.elem t a cs) with
    | none => none
    | some n2 =>
      match walkForest f cs with
      | none => none
      | some cs2 => some (n2.withChildren cs2)

/-- Walk applied to each node of a forest in document order. -/
def walkForest (f : HNode → Option HNode) : HForest → Option HForest
  | .nil => some .nil
  | .cons n rest =>
    match walkNode f n with
    | none => none
    | some n2 =>
      match walkForest f rest with
      | none => none
      | some rest2 => some (.cons n2 rest2)
end

/-- goquery AttrOr: the value of the named attribute, or the default when the
attribute is absent (main.go line 179). -/
def attrOr (attrs : List (Str × Str)) (key dflt : Str) : Str :=
  match attrs.find? (fun kv => kv.1 == key) with
  | some kv => kv.2
  | none => dflt

/-- goquery SetAttr: replaces the value of an existing attribute, or appends
the attribute when absent (main.go line 198). -/
def setAttr (attrs : List (Str × Str)) (key val : Str) : List (Str × Str) :=
  if (attrs.find? (fun kv => kv.1 == key)).isSome then
    attrs.map (fun kv => if kv.1 == key then (key, val) else kv)
  else
    attrs ++ [(key, val)]

/-- rewriteAttr on one element (main.go lines 178 to 200): read the attribute
(empty when absent), resolve it with rewriteAttrVal, and set it back only
when the result is nonempty. none propagates the nil url.Parse panic. -/
def rewriteElemAttr (urlParse : Str → Option GoURL) (pfx key : Str)
    (attrs : List (Str × Str)) : Option (List (Str × Str)) :=
  let href := attrOr attrs key []
  match rewriteAttrVal urlParse pfx href with
  | none => none
  | some h => some (if 0 < h.length then setAttr attrs key h else attrs)

/-- Which attribute the three selector passes rewrite for a given tag
(main.go lines 84 to 92): href on a and link, src on img and script, action
on form; other tags are untouched. The three passes touch disjoint tag sets,
so they are modelled as one traversal. -/
def attrNameFor (tag : Str) : Option Str :=
  if tag == chars "a" || tag == chars "link" then some (chars "href")
  else if tag == chars "img" || tag == chars "script" then some (chars "src")
  else if tag == chars "form" then some (chars "action")
  else none

/-- The per-node action of the attribute-rewriting passes. -/
def attrCallback (urlParse : Str → Option GoURL) (pfx : Str) (n : HNode) :
    Option HNode :=
  match n with
  | .text d => some (.text d)
  | .elem tag attrs cs =>
    match attrNameFor tag with
    | none => some (.elem tag attrs cs)
    | some key =>
      match rewriteElemAttr urlParse pfx key attrs with
      | none => none
      | some attrs2 => some (.elem tag attrs2 cs)

/-- The Walk callback of main.go lines 95 to 101: text nodes get the regexp
substitutions applied in order, other nodes are untouched. -/
def textCallback (regexps : List (Option Char)) (rules : List Rule) (n : HNode) :
    Option HNode :=
  match n with
  | .text d =>
    match applyRegexps regexps rules d with
    | none => none
    | some d2 => some (.text d2)
  | .elem tag attrs cs => some (.elem tag attrs cs)

/-- The content classification of main.go lines 59 to 62: the media type
parsed from the Content-Type header when mime.ParseMediaType succeeds
(modelled as some), otherwise the type sniffed from the body bytes by
http.DetectContentType. -/
def classify (parsedMediaType : Option Str) (sniffed : Str) : Str :=
  match parsedMediaType with
  | some ct => ct
  | none => sniffed

/-- The header copy of main.go lines 112 to 116: Content-Security-Policy is
deleted from the upstream header map, then every remaining header is copied
verbatim to the client response — including any upstream Content-Length. -/
def sentHeaders (headers : List (Str × Str)) : List (Str × Str) :=
  headers.filter (fun kv => !(kv.1 == chars "Content-Security-Policy"))

/-- What the /view/ handler does with a fetched upstream response: an
http.Error reply, a runtime panic aborting the response, or a relayed reply
with a status, headers and body. -/
inductive Outcome where
  | httpError (code : Nat) (msg : Str) : Outcome
  | panic : Outcome
  | reply (status : Nat) (headers : List (Str × Str)) (body : Str) : Outcome
  deriving Repr

/-- The /view/ handler from the content-type dispatch to the final write
(main.go lines 66 to 118), parameterised by the external collaborators:
urlParse models net/url Parse, parse models goquery.NewDocumentFromReader
(returning the node forest or an error message), serialize models
goquery.OuterHtml. When the classified type is text/html the rules are
compiled (nil results included), the body is parsed (parse failure is a 500),
the three attribute passes and the text Walk run (a panic aborts), the tree
is re-serialized (failure is a 500) and replaces the body; any other type
leaves the body untouched. Finally Content-Security-Policy is dropped, the
remaining upstream headers are copied, and the upstream status and the body
are written. -/
def respondStage (urlParse : Str → Option GoURL)
    (parse : Str → Except Str HForest) (serialize : HForest → Except Str Str)
    (pfx : Str) (contentType : Str) (rules : List Rule)
    (status : Nat) (headers : List (Str × Str)) (buf : Str) : Outcome :=
  if contentType = chars "text/html" then
    let regexps := compileRules rules
    match parse buf with
    | .error e => .httpError 500 e
    | .ok doc =>
      match walkForest (attrCallback urlParse pfx) doc with
      | none => .panic
      | some doc2 =>
        match walkForest (textCallback regexps rules) doc2 with
        | none => .panic
        | some doc3 =>
          match serialize doc3 with
          | .error e => .httpError 500 e
          | .ok body => .reply status (sentHeaders headers) body
  else
    .reply status (sentHeaders headers) buf

/-- getRules (main.go lines 157 to 171), parameterised by the external
decoders: the rules cookie of the inbound request (none when absent, as
r.Cookie then errors), base64 StdEncoding decoding and json.Unmarshal into a
rule list (none models a decode error). Every failure path returns nil, the
empty rule list; the function has no error result at all, so nothing is ever
surfaced to the client. -/
def getRules (b64decode : Str → Option Str)
    (unmarshal : Str → Option (List Rule)) (cookie : Option Str) : List Rule :=
  match cookie with
  | none => []
  | some v =>
    match b64decode v with
    | none => []
    | some body =>
      match unmarshal body with
      | none => []
      | some rules => rules

/-- Result of a POST to the control endpoint (main.go lines 122 to 142):
either http.Error with status 400 carrying the compile error text and setting
no cookie, or the success page, which sets the rules cookie to the serialized
new list and renders the same list. -/
inductive PostOut where
  | badRequest (msg : Str) : PostOut
  | okPage (cookieRules : List Rule) (rendered : List Rule) : PostOut
  deriving Repr, DecidableEq

/-- The POST branch of the control endpoint (main.go lines 122 to 142),
parameterised by regexp.Compile (error carries the compiler message): the
match field must compile; on failure respond 400 with the message and do not
touch the rules; on success append the new rule and set the cookie to the new
list. -/
def postRules (compile : Str → Except Str Unit) (existing : List Rule)
    (m rep : Str) : PostOut :=
  match compile m with
  | .error e => .badRequest e
  | .ok _ =>
    let rules := existing ++ [⟨m, rep⟩]
    .okPage rules rules

/-- The rule list the client holds after a POST: unchanged when no cookie was
set (the 400 path), otherwise the list stored in the fresh cookie. -/
def rulesAfterPost (compile : Str → Except Str Unit) (existing : List Rule)
    (m rep : Str) : List Rule :=
  match postRules compile existing m rep with
  | .badRequest _ => existing
  | .okPage rs _ => rs

instance (p : Str) : Decidable (viewPartsOk p) :=
  inferInstanceAs (Decidable (4 ≤ (splitSlash p).length))

/-- Claim C5: for every upstream response whose classified media type is not
exactly text/html (including application/xhtml+xml), the body bytes written to
the client are identical to the body bytes read from upstream. -/
theorem c5_non_html_passthrough (urlParse : Str → Option GoURL)
    (parse : Str → Except Str HForest) (serialize : HForest → Except Str Str)
    (pfx : Str) (pm : Option Str) (sniffed : Str) (rules : List Rule)
    (status : Nat) (headers : List (Str × Str)) (buf : Str)
    (h : classify pm sniffed ≠ chars "text/html") :
    respondStage urlParse parse serialize pfx (classify pm sniffed) rules status headers buf
      = Outcome.reply status (sentHeaders headers) buf := by
  simp [respondStage, h]

theorem c5_non_html_passthrough_witness :
    respondStage (fun _ => none) (fun _ => Except.error []) (fun _ => Except.error [])
      [] (classify (some (chars "application/xhtml+xml")) []) [] 200
      [(chars "Content-Type", chars "application/xhtml+xml")] (chars "rawbytes")
      = Outcome.reply 200
          (sentHeaders [(chars "Content-Type", chars "application/xhtml+xml")])
          (chars "rawbytes") :=
  c5_non_html_passthrough _ _ _ _ _ _ _ _ _ _ (by decide)

/-- Claim C6: a POST to the control endpoint whose match field does not
compile gets a 400 with the compiler message, sets no cookie, leaves the
rule list the caller holds unchanged, and the submitted pattern never appears
in the subsequent rule list. -/
theorem c6_invalid_rule_rejected (compile : Str → Except Str Unit)
    (existing : List Rule) (m rep e : Str)
    (h : compile m = Except.error e) (hm : m ∉ existing.map Rule.Match) :
    postRules compile existing m rep = PostOut.badRequest e
      ∧ rulesAfterPost compile existing m rep = existing
      ∧ m ∉ (rulesAfterPost compile existing m rep).map Rule.Match := by
  refine ⟨by simp [postRules, h], by simp [rulesAfterPost, postRules, h], ?_⟩
  simpa [rulesAfterPost, postRules, h] using hm

theorem c6_invalid_rule_rejected_witness :
    postRules (fun s => if s = chars "(" then Except.error (chars "missing closing )") else Except.ok ())
        [] (chars "(") (chars "x")
      = PostOut.badRequest (chars "missing closing )")
      ∧ rulesAfterPost (fun s => if s = chars "(" then Except.error (chars "missing closing )") else Except.ok ())
          [] (chars "(") (chars "x") = []
      ∧ chars "(" ∉ (rulesAfterPost (fun s => if s = chars "(" then Except.error (chars "missing closing )") else Except.ok ())
          [] (chars "(") (chars "x")).map Rule.Match :=
  c6_invalid_rule_rejected _ _ _ _ _ rfl (by simp)

/-- Claim C7: when the rules cookie is absent, not valid base64, or does not
decode to a JSON rule list, getRules returns the empty rule list; the
function has no error result, so no error reaches the client. -/
theorem c7_bad_cookie_empty_rules (b64decode : Str → Option Str)
    (unmarshal : Str → Option (List Rule)) (cookie : Option Str)
    (h : cookie = none
        ∨ (∃ v, cookie = some v ∧ b64decode v = none)
        ∨ (∃ v b, cookie = some v ∧ b64decode v = some b ∧ unmarshal b = none)) :
    getRules b64decode unmarshal cookie = [] := by
  rcases h with h | ⟨v, hv, hb⟩ | ⟨v, b, hv, hb, hu⟩ <;> simp [getRules, *]

theorem c7_bad_cookie_empty_rules_witness :
    getRules (fun _ => none) (fun _ => none) none = [] :=
  c7_bad_cookie_empty_rules _ _ _ (Or.inl rfl)

/-- The two-rule list of the sequential-composition property: A rewrites to
B, then B rewrites to C. -/
def c8Rules : List Rule := [⟨chars "A", chars "B"⟩, ⟨chars "B", chars "C"⟩]

/-- Claim C8: rule application composes sequentially on the same text: with
rules A to B then B to C, each applied to the current text of the node as in
the Walk callback, any text containing A ends up containing C and not B. -/
theorem c8_sequential_composition (t : Str) (h : 'A' ∈ t) :
    ∃ t2, applyRegexps (compileRules c8Rules) c8Rules t = some t2
      ∧ 'C' ∈ t2 ∧ 'B' ∉ t2 := by
  refine ⟨reApply 'B' (chars "C") (reApply 'A' (chars "B") t), rfl, ?_, ?_⟩
  · have hB : 'B' ∈ reApply 'A' (chars "B") t := by
      simp only [reApply]
      exact List.mem_flatMap.mpr ⟨'A', h, by decide⟩
    simp only [reApply] at hB ⊢
    exact List.mem_flatMap.mpr ⟨'B', hB, by decide⟩
  · intro hmem
    simp only [reApply] at hmem
    obtain ⟨x, hx, hfx⟩ := List.mem_flatMap.mp hmem
    by_cases hxB : x = 'B'
    · subst hxB
      revert hfx
      decide
    · rw [if_neg hxB] at hfx
      exact hxB (List.mem_singleton.mp hfx).symm

theorem c8_sequential_composition_witness :
    ∃ t2, applyRegexps (compileRules c8Rules) c8Rules (chars "xAy") = some t2
      ∧ 'C' ∈ t2 ∧ 'B' ∉ t2 :=
  c8_sequential_composition (chars "xAy") (by decide)

/-- Claim C9 counterexample: the path "/view/" is routed to the /view/
handler but splits into only three fields, so the accesses parts[:4] and
parts[3] are out of bounds — the claim that every routed path splits into at
least four fields is false. -/
theorem c9_parts_counterexample :
    routedToView (chars "/view/") = true ∧ ¬ viewPartsOk (chars "/view/") := by
  decide

/-- Claim C9 amended: a path routed to the /view/ handler splits into at
least four fields — making parts[:4], parts[2] and parts[3] in bounds —
exactly when it contains at least three slashes; paths such as "/view/" or
"/view/https" contain only two and are out of bounds. -/
theorem c9_parts_in_bounds_amended (p : Str)
    (hr : routedToView p = true) (hc : 3 ≤ p.count '/') : viewPartsOk p := by
  have hl := splitSlash_length p
  unfold viewPartsOk
  omega

theorem c9_parts_in_bounds_witness :
    viewPartsOk (chars "/view/https/example.com/") :=
  c9_parts_in_bounds_amended _ (by decide) (by decide)

/-- Claim C10: in rewriteAttr, an attribute value with an absolute prefix
whose url.Parse fails leads to the nil parsed pointer being dereferenced at
line 182 before the err check of line 185; the model reports the panic as
none. This refutes the claim that parsed is read only when no error
occurred. -/
theorem c10_nil_parse_dereference (urlParse : Str → Option GoURL)
    (pfx href : Str) (habs : hasPref (chars "https://") href = true)
    (hp : urlParse href = none) :
    rewriteAttrVal urlParse pfx href = none := by
  simp [rewriteAttrVal, habs, hp]

theorem c10_nil_parse_dereference_witness :
    rewriteAttrVal (fun _ => none) (chars "/view/https/example.com/")
      (chars "https://example.com/%zz") = none :=
  c10_nil_parse_dereference _ _ _ (by decide) rfl

/-- Claim C3: refuted on the code. The compile loop of main.go lines 69 to 76
logs a failed compile but appends the nil regexp anyway (there is no
continue), and the Walk callback then calls ReplaceAllString on that nil
pointer: with a stored rule whose pattern "(" does not compile and an HTML
body holding one text node, the handler panics instead of delivering the
page. -/
theorem c3_bad_rule_panics :
    respondStage (fun _ => none)
      (fun _ => Except.ok (HForest.cons (HNode.text (chars "hello")) HForest.nil))
      (fun _ => Except.ok [])
      (chars "/view/https/example.com/") (chars "text/html")
      [⟨chars "(", chars "x"⟩] 200 [] (chars "<p>hello</p>")
      = Outcome.panic := by
  rfl

/-- Claim C4: refuted on the code. The relay of main.go lines 112 to 118
copies every upstream header verbatim after the body has been rewritten: an
upstream text/html response with Content-Length 12 whose rewritten body has
10 bytes is sent with the stale Content-Length 12. -/
theorem c4_stale_content_length :
    respondStage (fun _ => none)
      (fun _ => Except.ok (HForest.cons (HNode.text (chars "hello")) HForest.nil))
      (fun _ => Except.ok (chars "HELLOHELLO"))
      (chars "/view/https/example.com/") (chars "text/html")
      [] 200 [(chars "Content-Length", chars "12")] (chars "<p>hello</p>")
      = Outcome.reply 200 [(chars "Content-Length", chars "12")] (chars "HELLOHELLO")
      ∧ (chars "HELLOHELLO").length ≠ 12 := by
  exact ⟨rfl, by decide⟩

/-- Splitting an encoded proxy path of the shape /view/ scheme / host
slash-rest with slash-free scheme and host yields exactly the fields the
handler reads. -/
theorem splitSlash_view (scheme host rest : Str)
    (hs : '/' ∉ scheme) (hh : '/' ∉ host) :
    splitSlash (chars "/view/" ++ scheme ++ chars "/" ++ host ++ '/' :: rest)
      = [] :: chars "view" :: scheme :: host :: splitSlash rest := by
  have h1 : chars "/view/" ++ scheme ++ chars "/" ++ host ++ '/' :: rest
      = '/' :: (chars "view" ++ '/' :: (scheme ++ '/' :: (host ++ '/' :: rest))) := by
    rw [show chars "/view/" = '/' :: (chars "view" ++ ['/']) from rfl,
      show chars "/" = ['/'] from rfl]
    simp [List.append_assoc]
  rw [h1, splitSlash_slash, splitSlash_seg _ _ (by decide),
    splitSlash_seg _ _ hs, splitSlash_seg _ _ hh]

/-- Claim C1 amended: decoding the proxy path produced by the rewriteAttr
encoding recovers the URL over scheme, host, path and query, provided the
path is nonempty (begins with a slash) and the fragment is empty; the scheme
and host are nonempty and slash-free as for any parsed absolute URL. -/
theorem c1_encode_decode_amended (u : GoURL) (hs : u.scheme ≠ [])
    (hh : u.host ≠ []) (hs2 : '/' ∉ u.scheme) (hh2 : '/' ∉ u.host)
    (hp : ∃ q, u.path = '/' :: q) (hf : u.fragment = []) :
    viewDecode (encodePath u) u.query = u := by
  obtain ⟨q, hq⟩ := hp
  rcases u with ⟨s, ho, pa, qu, fr⟩
  simp only at hq hf hs2 hh2
  subst hq
  subst hf
  unfold encodePath viewDecode
  simp only
  rw [splitSlash_view s ho q hs2 hh2]
  simp [joinSlash_splitSlash]

/-- A concrete absolute URL for the amended round-trip. -/
def c1url : GoURL :=
  ⟨chars "https", chars "example.com", chars "/a/b", chars "x=1", []⟩

theorem c1_encode_decode_witness :
    viewDecode (encodePath c1url) c1url.query = c1url :=
  c1_encode_decode_amended c1url (by decide) (by decide) (by decide) (by decide)
    ⟨chars "a/b", rfl⟩ rfl

/-- A concrete absolute URL with nonempty scheme and host on which the
stated round trip fails: its path is empty and its fragment nonempty, and the
decoded URL has path "/" and an empty fragment. -/
def c1badurl : GoURL :=
  ⟨chars "https", chars "example.com", [], [], chars "top"⟩

/-- Claim C1 counterexample: the round trip as claimed fails on c1badurl. -/
theorem c1_encode_decode_counterexample :
    viewDecode (encodePath c1badurl) c1badurl.query ≠ c1badurl := by
  decide

theorem joinSlash_cons_cons (s a : Str) (t : List Str) :
    joinSlash (s :: a :: t) = s ++ '/' :: joinSlash (a :: t) := rfl

theorem cleanSegs_nil_seg (acc : List Str) (rest : List Str) :
    cleanSegs acc ([] :: rest) = cleanSegs acc rest := by
  simp [cleanSegs]

theorem cleanSegs_push (acc : List Str) (seg : Str) (rest : List Str)
    (h1 : seg ≠ []) (h2 : seg ≠ ['.']) (h3 : seg ≠ ['.', '.']) :
    cleanSegs acc (seg :: rest) = cleanSegs (seg :: acc) rest := by
  simp [cleanSegs, h1, h2, h3]

/-- Claim C2 amended: for a root-relative href (beginning with a single
slash, so that the code does not classify it as protocol-relative) none of
whose segments is "..", rewriteAttr resolves it with path.Join and the result
always stays inside the origin: it extends /view/ scheme / host. Segments
".." do escape the prefix, as the counterexample shows, so the claim is
restricted to dotdot-free hrefs. -/
theorem c2_resolve_no_escape_amended (urlParse : Str → Option GoURL)
    (scheme host h0 : Str)
    (hs1 : '/' ∉ scheme) (hs2 : scheme ≠ []) (hs3 : scheme ≠ chars ".")
    (hs4 : scheme ≠ chars "..")
    (hh1 : '/' ∉ host) (hh2 : host ≠ []) (hh3 : host ≠ chars ".")
    (hh4 : host ≠ chars "..")
    (hnn : chars ".." ∉ splitSlash ('/' :: h0))
    (hdd : hasPref (chars "//") ('/' :: h0) = false) :
    ∃ rest,
      rewriteAttrVal urlParse
          (chars "/view/" ++ scheme ++ chars "/" ++ host ++ chars "/") ('/' :: h0)
        = some (chars "/view/" ++ scheme ++ chars "/" ++ host ++ rest) := by
  have e1 : hasPref (chars "http://") ('/' :: h0) = false := by
    show ('h' == '/' && hasPref (chars "ttp://") h0) = false
    rw [show ('h' == '/') = false from rfl, Bool.false_and]
  have e2 : hasPref (chars "https://") ('/' :: h0) = false := by
    show ('h' == '/' && hasPref (chars "ttps://") h0) = false
    rw [show ('h' == '/') = false from rfl, Bool.false_and]
  have e4 : hasPref (chars "/") ('/' :: h0) = true := rfl
  have hnn0 : chars ".." ∉ splitSlash h0 := by
    rw [splitSlash_slash] at hnn
    exact fun m => hnn (List.mem_cons_of_mem _ m)
  have hsplit : splitSlash ((chars "/view/" ++ scheme ++ chars "/" ++ host ++ chars "/")
        ++ '/' :: ('/' :: h0))
      = [] :: chars "view" :: scheme :: host :: ([] :: [] :: splitSlash h0) := by
    have h2 : (chars "/view/" ++ scheme ++ chars "/" ++ host ++ chars "/") ++ '/' :: ('/' :: h0)
        = chars "/view/" ++ scheme ++ chars "/" ++ host ++ '/' :: ('/' :: ('/' :: h0)) := by
      rw [show chars "/" = ['/'] from rfl]
      simp [List.append_assoc]
    rw [h2, splitSlash_view _ _ _ hs1 hh1, splitSlash_slash, splitSlash_slash]
  have hclean : cleanSegs [] ([] :: chars "view" :: scheme :: host :: ([] :: [] :: splitSlash h0))
      = chars "view" :: scheme :: host
          :: (splitSlash h0).filter (fun s => !(s = [] ∨ s = ['.'])) := by
    rw [cleanSegs_nil_seg, cleanSegs_push _ _ _ (by decide) (by decide) (by decide),
      cleanSegs_push _ _ _ hs2 hs3 hs4, cleanSegs_push _ _ _ hh2 hh3 hh4,
      cleanSegs_nil_seg, cleanSegs_nil_seg, cleanSegs_no_dotdot _ _ hnn0]
    simp
  simp only [rewriteAttrVal, e1, e2, hdd, e4, Bool.or_self, Bool.or_false,
    Bool.false_or, if_false, if_true, pathJoin, pathClean]
  rw [hsplit, hclean]
  rw [if_neg (by simp)]
  cases hF : (splitSlash h0).filter (fun s => !(s = [] ∨ s = ['.'])) with
  | nil =>
    refine ⟨[], ?_⟩
    rw [joinSlash_cons_cons, joinSlash_cons_cons,
      show joinSlash [host] = host from rfl,
      show chars "/view/" = '/' :: (chars "view" ++ ['/']) from rfl,
      show chars "/" = ['/'] from rfl]
    simp [List.append_assoc]
  | cons f fs =>
    refine ⟨'/' :: joinSlash (f :: fs), ?_⟩
    rw [joinSlash_cons_cons, joinSlash_cons_cons, joinSlash_cons_cons,
      show chars "/view/" = '/' :: (chars "view" ++ ['/']) from rfl,
      show chars "/" = ['/'] from rfl]
    simp [List.append_assoc]

theorem c2_resolve_no_escape_witness :
    ∃ rest,
      rewriteAttrVal (fun _ => none)
          (chars "/view/" ++ chars "https" ++ chars "/" ++ chars "example.com" ++ chars "/")
          ('/' :: chars "a/b")
        = some (chars "/view/" ++ chars "https" ++ chars "/" ++ chars "example.com" ++ rest) :=
  c2_resolve_no_escape_amended _ _ _ _ (by decide) (by decide) (by decide) (by decide)
    (by decide) (by decide) (by decide) (by decide) (by decide) (by decide)

/-- Claim C2 counterexample: the root-relative href "/../../../x" under the
prefix /view/https/example.com/ resolves to "/x", which does not begin with
the prefix — dotdot segments do escape above the prefix. -/
theorem c2_resolve_no_escape_counterexample :
    rewriteAttrVal (fun _ => none) (chars "/view/https/example.com/")
        (chars "/../../../x") = some (chars "/x")
      ∧ hasPref (chars "/view/https/example.com/") (chars "/x") = false := by
  decide
